import Mathlib

/-!
Shallow embedding of the document-reconciliation core of the
`terraform-provider-utils` Consul provider.

The embedded functions mirror, statement by statement, the Go source in
`internal/provider`:

* the exported-services resource: `readExportedServices`,
  `writeExportedServices`, the insert loop of `Create`/`Update`, and
  `removeExportedService`;
* the single-intention resource: `readServiceIntentions`,
  `writeServiceIntentions`, the source construction of `Create`/`Update`,
  and the source-removal scan of `Update`/`Delete`;
* the KV key resource: the remote operations issued by `Update` and
  `Delete`.

Go slices become `List`, Go strings become `String`, the Consul client's
fallible `Get` becomes an explicit `GetResult` argument, and a Go runtime
panic (out-of-range slice index) becomes `Option.none`.
-/

set_option autoImplicit false

namespace ConsulUtils

/-- `api.ServiceConsumer`: a consuming peer inside an exported-service entry. -/
structure ServiceConsumer where
  peer : String
  deriving Repr, DecidableEq

/-- `api.ExportedService`: one entry of the exported-services document. -/
structure ExportedService where
  name : String
  consumers : List ServiceConsumer
  deriving Repr, DecidableEq

/-- `api.ExportedServicesConfigEntry`: the (singleton) exported-services document. -/
structure ExportedServicesConfigEntry where
  name : String
  services : List ExportedService
  deriving Repr, DecidableEq

/-- `api.SourceIntention`: one source entry of a service-intentions document.
In Go, `Peer` is a plain string whose zero value `""` stands for "no peer". -/
structure SourceIntention where
  name : String
  peer : String
  action : String
  precedence : Nat
  sourceType : String
  deriving Repr, DecidableEq

/-- `api.ServiceIntentionsConfigEntry`: the per-destination-service intentions document. -/
structure ServiceIntentionsConfigEntry where
  kind : String
  name : String
  sources : List SourceIntention
  deriving Repr, DecidableEq

/-- Outcome of `client.ConfigEntries().Get(...)`: either a decoded document or
a non-nil `err` (the Consul client reports both transport failures and HTTP 404
"not found" through this single error value). -/
inductive GetResult (α : Type) where
  | ok (entry : α)
  | fail (msg : String)
  deriving Repr, DecidableEq

/-- `readExportedServices` (exported-service resource file, lines 29-39):
on any non-nil `err` from `Get`, returns a fresh empty document named
`"default"`; otherwise returns the fetched document. -/
def readExportedServices (r : GetResult ExportedServicesConfigEntry) :
    ExportedServicesConfigEntry :=
  match r with
  | .fail _ => { name := "default", services := [] }
  | .ok entry => entry

/-- `writeExportedServices` issues one of these remote calls. -/
inductive ExportedWrite where
  | deleteEntry (kind name : String)
  | setEntry (entry : ExportedServicesConfigEntry)
  deriving Repr, DecidableEq

/-- `writeExportedServices` (lines 41-51): delete the remote document when its
service list is empty, otherwise put the full document. -/
def writeExportedServices (entry : ExportedServicesConfigEntry) : ExportedWrite :=
  if entry.services.length = 0 then
    .deleteEntry "exported-services" "default"
  else
    .setEntry entry

/-- The `for idx := range Services { if Services[idx].Name == svc { append consumer; inserted = true } }`
loop of `ConsulExportedServiceResource.Create`/`Update`: returns the updated
list together with the `inserted` flag. The loop has no `break`, so every
matching entry receives the consumer. -/
def insertExportedLoop (svcKey : String) (c : ServiceConsumer) :
    List ExportedService → List ExportedService × Bool
  | [] => ([], false)
  | s :: rest =>
    let r := insertExportedLoop svcKey c rest
    if s.name == svcKey then
      ({ s with consumers := s.consumers ++ [c] } :: r.1, true)
    else
      (s :: r.1, r.2)

/-- The insert step of `ConsulExportedServiceResource.Create`/`Update`
(lines 141-161 / 229-245): append the consumer to every entry named `svcKey`;
if none matched, append a new entry holding just that consumer. -/
def insertExportedService (services : List ExportedService) (svcKey peer : String) :
    List ExportedService :=
  let r := insertExportedLoop svcKey ⟨peer⟩ services
  if r.2 then r.1 else r.1 ++ [⟨svcKey, [⟨peer⟩]⟩]

/-- The `sourceToRemove := -1; for i, x := range l { if p x { sourceToRemove = i; break } }`
scan shared by both resources: index of the first element satisfying `p`. -/
def findFirstIdx {α : Type} (p : α → Bool) : List α → Option Nat
  | [] => none
  | a :: l => if p a then some 0 else (findFirstIdx p l).map (· + 1)

/-- `removeExportedService` (lines 288-314). The Go function leaves both index
variables at their zero value `0` when no match is found, then indexes
`Services[serviceToRemoveIdx]` and slices `Consumers[consumerToRemoveIdx+1:]`
unconditionally; `none` models the runtime panic of those accesses on an
out-of-range index. -/
def removeExportedService (services : List ExportedService)
    (serviceToRemove consumerToRemove : String) : Option (List ExportedService) :=
  let serviceToRemoveIdx := (findFirstIdx (fun s => s.name == serviceToRemove) services).getD 0
  match services.get? serviceToRemoveIdx with
  | none => none
  | some entry =>
    let consumerToRemoveIdx :=
      (findFirstIdx (fun c => c.peer == consumerToRemove) entry.consumers).getD 0
    if consumerToRemoveIdx + 1 ≤ entry.consumers.length then
      let newConsumers :=
        entry.consumers.take consumerToRemoveIdx ++ entry.consumers.drop (consumerToRemoveIdx + 1)
      if newConsumers.length = 0 then
        some (services.take serviceToRemoveIdx ++ services.drop (serviceToRemoveIdx + 1))
      else
        some (services.set serviceToRemoveIdx { entry with consumers := newConsumers })
    else
      none

/-- `readServiceIntentions` (single-intention resource file, lines 42-53):
on any non-nil `err` from `Get`, returns a fresh empty document for the
destination service; otherwise returns the fetched document. -/
def readServiceIntentions (serviceName : String)
    (r : GetResult ServiceIntentionsConfigEntry) : ServiceIntentionsConfigEntry :=
  match r with
  | .fail _ => { kind := "service-intentions", name := serviceName, sources := [] }
  | .ok entry => entry

/-- `writeServiceIntentions` issues one of these remote calls. -/
inductive IntentionWrite where
  | deleteEntry (kind name : String)
  | setEntry (entry : ServiceIntentionsConfigEntry)
  deriving Repr, DecidableEq

/-- `writeServiceIntentions` (lines 55-65): delete the remote document when its
source list is empty, otherwise put the full document. -/
def writeServiceIntentions (entry : ServiceIntentionsConfigEntry) : IntentionWrite :=
  if entry.sources.length = 0 then
    .deleteEntry "service-intentions" entry.name
  else
    .setEntry entry

/-- The match predicate of the source-removal scans in
`ConsulSingleIntentionResource.Update`/`Delete`: name alone when the stored
`source_peer` is null, name and peer otherwise. -/
def sourceMatches (srcName : String) (srcPeer : Option String) (s : SourceIntention) : Bool :=
  match srcPeer with
  | none => s.name == srcName
  | some p => s.name == srcName && s.peer == p

/-- The source-removal step of `ConsulSingleIntentionResource.Update` (lines
258-276) and `Delete` (lines 330-348): find the first matching source and
splice it out; when `sourceToRemove` stays `-1`, the list is untouched. -/
def removeSourceIntention (sources : List SourceIntention)
    (srcName : String) (srcPeer : Option String) : List SourceIntention :=
  match findFirstIdx (sourceMatches srcName srcPeer) sources with
  | none => sources
  | some i => sources.take i ++ sources.drop (i + 1)

/-- The source literal built by `ConsulSingleIntentionResource.Create` (lines
171-186) and `Update` (lines 278-293): `Action: allow`, `Precedence: 9`,
`Type: consul`, and the `Peer` field set only when `source_peer` is non-null. -/
def mkSourceIntention (srcName : String) (srcPeer : Option String) : SourceIntention :=
  match srcPeer with
  | none =>
    { name := srcName, peer := "", action := "allow", precedence := 9, sourceType := "consul" }
  | some p =>
    { name := srcName, peer := p, action := "allow", precedence := 9, sourceType := "consul" }

/-- The insert step of `Create`/`Update`: the new source is appended at the end. -/
def insertSourceIntention (sources : List SourceIntention)
    (srcName : String) (srcPeer : Option String) : List SourceIntention :=
  sources ++ [mkSourceIntention srcName srcPeer]

/-- Document-level reconciliation of `ConsulSingleIntentionResource.Create`. -/
def intentionCreateDoc (doc : ServiceIntentionsConfigEntry)
    (srcName : String) (srcPeer : Option String) : ServiceIntentionsConfigEntry :=
  { doc with sources := insertSourceIntention doc.sources srcName srcPeer }

/-- Document-level reconciliation of `ConsulSingleIntentionResource.Update`:
remove by the old state's keys, then insert the new source. -/
def intentionUpdateDoc (doc : ServiceIntentionsConfigEntry)
    (oldName : String) (oldPeer : Option String)
    (newName : String) (newPeer : Option String) : ServiceIntentionsConfigEntry :=
  { doc with sources :=
      insertSourceIntention (removeSourceIntention doc.sources oldName oldPeer) newName newPeer }

/-- A remote KV-store call issued by the KV key resource. -/
inductive KvOp where
  | delete (path : String)
  | put (path value : String)
  deriving Repr, DecidableEq

/-- The remote calls of `ConsulKeyResource.Update` (lines 523-561), in issue
order on the success path: a delete of the (new) path first when the prior
state's `delete` flag is true, then the put of the planned path and value. -/
def kvUpdateOps (oldDelete : Bool) (path value : String) : List KvOp :=
  (if oldDelete then [KvOp.delete path] else []) ++ [KvOp.put path value]

/-- The remote calls of `ConsulKeyResource.Delete` (lines 563-583): a delete of
the path exactly when the stored `delete` flag is true. -/
def kvDeleteOps (deleteFlag : Bool) (path : String) : List KvOp :=
  if deleteFlag then [KvOp.delete path] else []

end ConsulUtils

namespace ConsulUtils

/-! ### Helper lemmas -/

theorem findFirstIdx_cons {α : Type} (p : α → Bool) (a : α) (l : List α) :
    findFirstIdx p (a :: l) = if p a then some 0 else (findFirstIdx p l).map (· + 1) :=
  rfl

theorem removeSourceIntention_cons (s : SourceIntention) (l : List SourceIntention)
    (srcName : String) (srcPeer : Option String) :
    removeSourceIntention (s :: l) srcName srcPeer =
      if sourceMatches srcName srcPeer s then l
      else s :: removeSourceIntention l srcName srcPeer := by
  unfold removeSourceIntention
  rw [findFirstIdx_cons]
  by_cases h : sourceMatches srcName srcPeer s
  · simp [h]
  · simp only [h, if_neg, Bool.false_eq_true, not_false_iff, if_false]
    cases hfi : findFirstIdx (sourceMatches srcName srcPeer) l with
    | none => simp
    | some i => simp [List.take_succ_cons, List.drop_succ_cons]

theorem removeSourceIntention_of_no_match (l : List SourceIntention)
    (srcName : String) (srcPeer : Option String)
    (h : ∀ s ∈ l, sourceMatches srcName srcPeer s = false) :
    removeSourceIntention l srcName srcPeer = l := by
  induction l with
  | nil => rfl
  | cons s rest ih =>
    rw [removeSourceIntention_cons]
    have hs : sourceMatches srcName srcPeer s = false := h s (List.mem_cons_self s rest)
    simp only [hs, Bool.false_eq_true, if_false]
    rw [ih (fun x hx => h x (List.mem_cons_of_mem s hx))]

theorem removeSourceIntention_subset (l : List SourceIntention)
    (srcName : String) (srcPeer : Option String) :
    ∀ x ∈ removeSourceIntention l srcName srcPeer, x ∈ l := by
  induction l with
  | nil => intro x hx; exact absurd hx (by simp [removeSourceIntention, findFirstIdx])
  | cons s rest ih =>
    intro x hx
    rw [removeSourceIntention_cons] at hx
    by_cases h : sourceMatches srcName srcPeer s
    · simp only [h, if_true] at hx
      exact List.mem_cons_of_mem s hx
    · simp only [h, Bool.false_eq_true, if_false, List.mem_cons] at hx
      rcases hx with rfl | hx
      · exact List.mem_cons_self x rest
      · exact List.mem_cons_of_mem s (ih x hx)

theorem insertExportedLoop_of_no_match (svcKey : String) (c : ServiceConsumer)
    (l : List ExportedService) (h : ∀ s ∈ l, s.name ≠ svcKey) :
    insertExportedLoop svcKey c l = (l, false) := by
  induction l with
  | nil => rfl
  | cons s rest ih =>
    have hs : (s.name == svcKey) = false :=
      beq_eq_false_iff_ne.mpr (h s (List.mem_cons_self s rest))
    simp only [insertExportedLoop, hs, Bool.false_eq_true, if_false]
    rw [ih (fun x hx => h x (List.mem_cons_of_mem s hx))]


theorem insertExportedLoop_split (svcKey : String) (c : ServiceConsumer)
    (l1 l2 : List ExportedService) (e : ExportedService)
    (h1 : ∀ s ∈ l1, s.name ≠ svcKey) (h2 : ∀ s ∈ l2, s.name ≠ svcKey)
    (he : e.name = svcKey) :
    insertExportedLoop svcKey c (l1 ++ e :: l2) =
      (l1 ++ { e with consumers := e.consumers ++ [c] } :: l2, true) := by
  induction l1 with
  | nil =>
    have he' : (e.name == svcKey) = true := beq_iff_eq.mpr he
    simp only [List.nil_append, insertExportedLoop, he', if_true]
    rw [insertExportedLoop_of_no_match svcKey c l2 h2]
  | cons s rest ih =>
    have hs : (s.name == svcKey) = false :=
      beq_eq_false_iff_ne.mpr (h1 s (List.mem_cons_self s rest))
    have hrest := ih (fun x hx => h1 x (List.mem_cons_of_mem s hx))
    simp only [List.cons_append, insertExportedLoop, hs, Bool.false_eq_true, if_false,
      List.append_eq, hrest]

/-! ### Claims -/

/-- **C1.** The spec requires the remove-member reconciliation to leave the
document unchanged when no entry matches the entry key or no member matches
the member key.  The intention resource's scan does so (`sourceToRemove`
starts at `-1` and removal is guarded), but `removeExportedService` leaves its
index variables at the Go zero value `0` on a failed search: on the document
`[{name: "a", consumers: [{peer: "x"}, {peer: "y"}]}]` with the non-matching
keys `("b", "z")` it deletes the consumer `{peer: "x"}` from entry `"a"`
instead of returning the document unchanged.  This theorem evaluates the
embedded code at that failing input. -/
theorem removeExportedService_no_match_mutates :
    removeExportedService [⟨"a", [⟨"x"⟩, ⟨"y"⟩]⟩] "b" "z" = some [⟨"a", [⟨"y"⟩]⟩] ∧
      some [(⟨"a", [⟨"y"⟩]⟩ : ExportedService)] ≠
        some [(⟨"a", [⟨"x"⟩, ⟨"y"⟩]⟩ : ExportedService)] := by
  refine ⟨?_, by decide⟩
  decide

/-- **C2.** The spec states the reconciler is total, in particular on the empty
document that the caller's normalization of a missing remote document
produces.  In fact `removeExportedService` indexes
`Services[serviceToRemoveIdx]` with `serviceToRemoveIdx = 0` on an empty
service list, an out-of-range access (modelled by `none`): the Go code panics
at runtime on the empty document. -/
theorem removeExportedService_empty_doc_panics :
    removeExportedService [] "svc" "peer" = none := by
  decide

/-- **C4.** Insertion for the exported-services document: under the document's
documented key-uniqueness invariant (no two top-level entries share a name),
inserting a member for an entry key that is absent appends a fresh one-member
entry at the end, and inserting for the (unique) existing entry with that key
appends the member to that entry's member list, changing no other entry and
creating no new top-level entry (the entry count is unchanged). -/
theorem insertExportedService_spec
    (l1 l2 : List ExportedService) (svcKey peer : String)
    (h1 : ∀ s ∈ l1, s.name ≠ svcKey) (h2 : ∀ s ∈ l2, s.name ≠ svcKey) :
    insertExportedService (l1 ++ l2) svcKey peer = (l1 ++ l2) ++ [⟨svcKey, [⟨peer⟩]⟩] ∧
      ∀ e : ExportedService, e.name = svcKey →
        insertExportedService (l1 ++ e :: l2) svcKey peer =
            l1 ++ { e with consumers := e.consumers ++ [⟨peer⟩] } :: l2 ∧
          (insertExportedService (l1 ++ e :: l2) svcKey peer).length =
            (l1 ++ e :: l2).length := by
  constructor
  · have hno : ∀ s ∈ l1 ++ l2, s.name ≠ svcKey := by
      intro s hs
      rcases List.mem_append.mp hs with h | h
      · exact h1 s h
      · exact h2 s h
    unfold insertExportedService
    rw [insertExportedLoop_of_no_match svcKey ⟨peer⟩ (l1 ++ l2) hno]
    simp
  · intro e he
    have hloop := insertExportedLoop_split svcKey ⟨peer⟩ l1 l2 e h1 h2 he
    constructor
    · unfold insertExportedService
      rw [hloop]
      simp
    · unfold insertExportedService
      rw [hloop]
      simp

/-- Witness for `insertExportedService_spec` at a concrete document. -/
theorem insertExportedService_spec_witness :
    insertExportedService [⟨"other", [⟨"q"⟩]⟩] "svc1" "p2" =
        [⟨"other", [⟨"q"⟩]⟩, ⟨"svc1", [⟨"p2"⟩]⟩] ∧
      insertExportedService [⟨"other", [⟨"q"⟩]⟩, ⟨"svc1", [⟨"p1"⟩]⟩] "svc1" "p2" =
        [⟨"other", [⟨"q"⟩]⟩, ⟨"svc1", [⟨"p1"⟩, ⟨"p2"⟩]⟩] := by
  have h := insertExportedService_spec [⟨"other", [⟨"q"⟩]⟩] [] "svc1" "p2"
    (by decide) (by decide)
  exact ⟨h.1, (h.2 ⟨"svc1", [⟨"p1"⟩]⟩ rfl).1⟩


/-- **C5, counterexample.** The claim says a transport/remote-unreachable error
on fetch is surfaced as a fatal operation error, with only a not-found result
normalized to the empty default document.  In the code, `readServiceIntentions`
and `readExportedServices` have no error outcome at all: on *any* non-nil
`err` — here the concrete transport error `"connection refused"` — they return
the normalized empty default document, indistinguishable from the not-found
case. -/
theorem readServiceIntentions_transport_error_not_surfaced :
    readServiceIntentions "web" (.fail "connection refused") =
        { kind := "service-intentions", name := "web", sources := [] } ∧
      readServiceIntentions "web" (.fail "connection refused") =
        readServiceIntentions "web" (.fail "Unexpected response code: 404") ∧
      readExportedServices (.fail "connection refused") =
        { name := "default", services := [] } := by
  exact ⟨rfl, rfl, rfl⟩

/-- **C5, amended.** On every document fetch performed by a lifecycle
operation of the exported-service or intention resource, *every* fetch error —
transport failure and not-found alike — is normalized to the empty default
document seeded with the expected name; no fetch error is surfaced to the
caller, and a successful fetch is returned as is. -/
theorem read_normalizes_every_fetch_error (serviceName msg : String) :
    readServiceIntentions serviceName (.fail msg) =
        { kind := "service-intentions", name := serviceName, sources := [] } ∧
      readExportedServices (.fail msg) = { name := "default", services := [] } ∧
      (∀ doc : ServiceIntentionsConfigEntry,
        readServiceIntentions serviceName (.ok doc) = doc) ∧
      (∀ doc : ExportedServicesConfigEntry, readExportedServices (.ok doc) = doc) := by
  exact ⟨rfl, rfl, fun _ => rfl, fun _ => rfl⟩

/-- **C6.** The persist step deletes the remote document exactly when the
reconciled document's entry list is empty and otherwise puts the full
document, for both the exported-services and the intentions document; and, as
in the spec's Scenario 4, removing the only consumer of the only exported
service yields the empty document, whose persist is a delete. -/
theorem write_deletes_iff_empty (e : ExportedServicesConfigEntry)
    (i : ServiceIntentionsConfigEntry) (svcName peerName : String) :
    (writeExportedServices e = .deleteEntry "exported-services" "default" ↔
        e.services = []) ∧
      (e.services ≠ [] → writeExportedServices e = .setEntry e) ∧
      (writeServiceIntentions i = .deleteEntry "service-intentions" i.name ↔
        i.sources = []) ∧
      (i.sources ≠ [] → writeServiceIntentions i = .setEntry i) ∧
      removeExportedService [⟨svcName, [⟨peerName⟩]⟩] svcName peerName = some [] ∧
      writeExportedServices ⟨"default", []⟩ =
        .deleteEntry "exported-services" "default" := by
  refine ⟨?_, ?_, ?_, ?_, ?_, rfl⟩
  · unfold writeExportedServices
    rcases e.services with _ | ⟨s, l⟩ <;> simp
  · intro h
    unfold writeExportedServices
    rw [if_neg (by simpa [List.length_eq_zero] using h)]
  · unfold writeServiceIntentions
    rcases i.sources with _ | ⟨s, l⟩ <;> simp
  · intro h
    unfold writeServiceIntentions
    rw [if_neg (by simpa [List.length_eq_zero] using h)]
  · simp [removeExportedService, findFirstIdx]

/-- Witness for `write_deletes_iff_empty` at concrete documents. -/
theorem write_deletes_iff_empty_witness :
    writeExportedServices ⟨"default", [⟨"s", [⟨"p"⟩]⟩]⟩ =
        .setEntry ⟨"default", [⟨"s", [⟨"p"⟩]⟩]⟩ ∧
      removeExportedService [⟨"s", [⟨"p"⟩]⟩] "s" "p" = some [] ∧
      writeServiceIntentions ⟨"service-intentions", "web", []⟩ =
        .deleteEntry "service-intentions" "web" := by
  have h := write_deletes_iff_empty ⟨"default", [⟨"s", [⟨"p"⟩]⟩]⟩
    ⟨"service-intentions", "web", []⟩ "s" "p"
  exact ⟨h.2.1 (by decide), h.2.2.2.2.1, h.2.2.1.mpr rfl⟩

/-- **C7, counterexample.** The claim that the remove-member reconciliation is
idempotent fails on the intention resource's source-removal scan when two
sources match the key: on `[{name:"a",peer:"p1"}, {name:"a",peer:"p2"}]` with
key `("a", null)`, the first application removes the `"p1"` source, and the
second application — instead of being a no-op — removes the `"p2"` source as
well.  (On the exported-services side it fails even more broadly, see the C1
defect.) -/
theorem removeSourceIntention_twice_ne_once :
    removeSourceIntention
        (removeSourceIntention
          [⟨"a", "p1", "allow", 9, "consul"⟩, ⟨"a", "p2", "allow", 9, "consul"⟩]
          "a" none)
        "a" none ≠
      removeSourceIntention
        [⟨"a", "p1", "allow", 9, "consul"⟩, ⟨"a", "p2", "allow", 9, "consul"⟩]
        "a" none := by
  decide

/-- **C7, amended.** For the intention resource's source-removal scan,
removal is idempotent on every document satisfying the spec's key-uniqueness
invariant (at most one source matches the `(entryKey, memberKey)` predicate):
applying the removal twice with the same keys yields the same document as
applying it once.  The exported-services remover does not satisfy the
property because of the C1 defect. -/
theorem removeSourceIntention_idempotent (sources : List SourceIntention)
    (srcName : String) (srcPeer : Option String)
    (h : sources.countP (sourceMatches srcName srcPeer) ≤ 1) :
    removeSourceIntention (removeSourceIntention sources srcName srcPeer) srcName srcPeer =
      removeSourceIntention sources srcName srcPeer := by
  induction sources with
  | nil => rfl
  | cons s rest ih =>
    rw [removeSourceIntention_cons]
    by_cases hs : sourceMatches srcName srcPeer s
    · simp only [hs, if_true]
      have hrest : rest.countP (sourceMatches srcName srcPeer) = 0 := by
        rw [List.countP_cons_of_pos _ _ hs] at h
        omega
      exact removeSourceIntention_of_no_match rest srcName srcPeer
        (fun x hx => Bool.eq_false_iff.mpr (List.countP_eq_zero.mp hrest x hx))
    · simp only [hs, Bool.false_eq_true, if_false]
      rw [removeSourceIntention_cons]
      simp only [hs, Bool.false_eq_true, if_false]
      rw [List.countP_cons_of_neg _ _ hs] at h
      rw [ih h]

/-- Witness for `removeSourceIntention_idempotent` at a concrete document. -/
theorem removeSourceIntention_idempotent_witness :
    ([⟨"a", "p1", "allow", 9, "consul"⟩, ⟨"b", "p1", "allow", 9, "consul"⟩] :
        List SourceIntention).countP (sourceMatches "a" none) ≤ 1 ∧
      removeSourceIntention
          (removeSourceIntention
            [⟨"a", "p1", "allow", 9, "consul"⟩, ⟨"b", "p1", "allow", 9, "consul"⟩]
            "a" none)
          "a" none =
        removeSourceIntention
          [⟨"a", "p1", "allow", 9, "consul"⟩, ⟨"b", "p1", "allow", 9, "consul"⟩]
          "a" none :=
  ⟨by decide,
    removeSourceIntention_idempotent
      [⟨"a", "p1", "allow", 9, "consul"⟩, ⟨"b", "p1", "allow", 9, "consul"⟩]
      "a" none (by decide)⟩


theorem sourceMatches_mkSourceIntention (srcName : String) (srcPeer : Option String) :
    sourceMatches srcName srcPeer (mkSourceIntention srcName srcPeer) = true := by
  cases srcPeer <;> simp [sourceMatches, mkSourceIntention]

/-- **C8, counterexample.** The claim that removing `(k, m)` right after
inserting `(k, m)` restores the original document fails when the document
already holds a source matching `(k, m)`: on the document
`[{name:"a", peer:"q"}]`, inserting `("a", null)` appends a fresh
`{name:"a", peer:""}` source, and the subsequent removal of `("a", null)`
deletes the *first* name-`"a"` match — the pre-existing `peer:"q"` source —
leaving `[{name:"a", peer:""}]` instead of the original document. -/
theorem remove_insert_not_roundtrip :
    removeSourceIntention
        (insertSourceIntention [⟨"a", "q", "allow", 9, "consul"⟩] "a" none) "a" none ≠
      [⟨"a", "q", "allow", 9, "consul"⟩] := by
  decide

/-- **C8, amended.** For the intention resource, removing `(k, m)` after
inserting `(k, m)` restores the document exactly — all entries in their
original order — provided no source already in the document matches the
`(k, m)` removal predicate (which holds under the spec's uniqueness invariant
whenever the resource being created is not already present). -/
theorem remove_insert_roundtrip (sources : List SourceIntention)
    (srcName : String) (srcPeer : Option String)
    (h : ∀ s ∈ sources, sourceMatches srcName srcPeer s = false) :
    removeSourceIntention (insertSourceIntention sources srcName srcPeer) srcName srcPeer =
      sources := by
  induction sources with
  | nil =>
    show removeSourceIntention (mkSourceIntention srcName srcPeer :: []) srcName srcPeer = []
    rw [removeSourceIntention_cons]
    simp [sourceMatches_mkSourceIntention]
  | cons s rest ih =>
    have hs : sourceMatches srcName srcPeer s = false := h s (List.mem_cons_self s rest)
    show removeSourceIntention (s :: (rest ++ [mkSourceIntention srcName srcPeer]))
        srcName srcPeer = s :: rest
    rw [removeSourceIntention_cons]
    simp only [hs, Bool.false_eq_true, if_false]
    have ih' := ih (fun x hx => h x (List.mem_cons_of_mem s hx))
    simp only [insertSourceIntention] at ih'
    rw [ih']

/-- Witness for `remove_insert_roundtrip` at a concrete document. -/
theorem remove_insert_roundtrip_witness :
    removeSourceIntention
        (insertSourceIntention [⟨"b", "q", "allow", 9, "consul"⟩] "a" (some "p1"))
        "a" (some "p1") =
      [⟨"b", "q", "allow", 9, "consul"⟩] :=
  remove_insert_roundtrip [⟨"b", "q", "allow", 9, "consul"⟩] "a" (some "p1") (by decide)

/-- **C9.** The KV key resource: `Update` issues a remote delete of the key
path, before the put of the planned `(path, value)`, exactly when the `delete`
flag stored in the prior state is true (the path cannot change across an
in-place update since it requires replacement); resource `Delete` issues a
remote delete of the path exactly when the stored flag is true; with the flag
false neither operation issues any remote delete. -/
theorem kv_delete_iff_flag (flag : Bool) (path value : String) :
    kvUpdateOps true path value = [KvOp.delete path, KvOp.put path value] ∧
      kvUpdateOps false path value = [KvOp.put path value] ∧
      kvDeleteOps true path = [KvOp.delete path] ∧
      kvDeleteOps false path = [] ∧
      (KvOp.delete path ∈ kvUpdateOps flag path value ↔ flag = true) ∧
      (KvOp.delete path ∈ kvDeleteOps flag path ↔ flag = true) := by
  refine ⟨rfl, rfl, rfl, rfl, ?_, ?_⟩ <;>
    cases flag <;> simp [kvUpdateOps, kvDeleteOps]

/-- **C10.** Every source the single-intention resource's `Create` or `Update`
writes into the intentions document is either a source that was already in the
fetched document or the literal the provider constructs: `Action` is `allow`,
`Precedence` is `9`, the source `Type` is `consul`, the name is the configured
`source_service`, and the `Peer` field carries the configured `source_peer`
exactly when that attribute is non-null (the Go zero value `""` otherwise).
No other action, precedence, or source type is ever produced. -/
theorem intention_written_sources_invariant
    (doc : ServiceIntentionsConfigEntry) (oldName newName : String)
    (oldPeer newPeer : Option String) (s : SourceIntention) :
    (s ∈ (intentionCreateDoc doc newName newPeer).sources →
        s ∈ doc.sources ∨ s = mkSourceIntention newName newPeer) ∧
      (s ∈ (intentionUpdateDoc doc oldName oldPeer newName newPeer).sources →
        s ∈ doc.sources ∨ s = mkSourceIntention newName newPeer) ∧
      (mkSourceIntention newName newPeer).action = "allow" ∧
      (mkSourceIntention newName newPeer).precedence = 9 ∧
      (mkSourceIntention newName newPeer).sourceType = "consul" ∧
      (mkSourceIntention newName newPeer).name = newName ∧
      (mkSourceIntention newName newPeer).peer = newPeer.getD "" := by
  refine ⟨?_, ?_, ?_, ?_, ?_, ?_, ?_⟩
  · intro hmem
    simp only [intentionCreateDoc, insertSourceIntention, List.mem_append,
      List.mem_singleton] at hmem
    exact hmem
  · intro hmem
    simp only [intentionUpdateDoc, insertSourceIntention, List.mem_append,
      List.mem_singleton] at hmem
    rcases hmem with hmem | rfl
    · exact Or.inl (removeSourceIntention_subset doc.sources oldName oldPeer s hmem)
    · exact Or.inr rfl
  · cases newPeer <;> rfl
  · cases newPeer <;> rfl
  · cases newPeer <;> rfl
  · cases newPeer <;> rfl
  · cases newPeer <;> rfl

/-- Witness for `intention_written_sources_invariant` at a concrete document. -/
theorem intention_written_sources_invariant_witness :
    mkSourceIntention "api" (some "p1") ∈
        ([⟨"other", "q", "deny", 3, "x"⟩] : List SourceIntention) ∨
      mkSourceIntention "api" (some "p1") = mkSourceIntention "api" (some "p1") := by
  have h := intention_written_sources_invariant
    ⟨"service-intentions", "db", [⟨"other", "q", "deny", 3, "x"⟩]⟩ "old" "api"
    none (some "p1") (mkSourceIntention "api" (some "p1"))
  exact h.1 (by decide)

end ConsulUtils
